import Mathlib

/-!
Verification of the translation and correlation core of the
savaki/twin-in-disguise repository (an Anthropic-to-Gemini protocol
translator written in Go).

The Go source is shallowly embedded: Go maps of string keys to dynamic
JSON values become association lists over an inductive JSON value type,
Go maps used purely through insert and lookup become functions from
String to Option String, fallible Go functions returning a value and an
error become Except String, and the uuid.New identifier generator is
modelled as an abstract supply of fresh identifiers indexed by the
order in which the Go code calls it.
-/

namespace TwinInDisguise

/-- A dynamic JSON value, the embedding of interface values held by
the Go maps of type map from string to interface. Objects are
association lists, mirroring Go maps whose keys are unique. -/
inductive JSONValue where
  | str (s : String)
  | num (n : Int)
  | boolVal (b : Bool)
  | null
  | arr (xs : List JSONValue)
  | obj (fs : List (String × JSONValue))
deriving Repr

/-- Association-list lookup, the embedding of indexing a Go map. -/
def lookupJ (k : String) : List (String × JSONValue) → Option JSONValue
  | [] => none
  | (k', v) :: rest => if k' = k then some v else lookupJ k rest

/- Constants of src/types/constants.go. -/

def ContentTypeText : String := "text"
def ContentTypeImage : String := "image"
def ContentTypeToolUse : String := "tool_use"
def ContentTypeToolResult : String := "tool_result"
def RoleUser : String := "user"
def RoleAssistant : String := "assistant"
def RoleModel : String := "model"
def ResponseTypeMessage : String := "message"
def StopReasonEndTurn : String := "end_turn"
def SchemaFieldDollarSchema : String := "$schema"
def SchemaFieldAdditionalProperties : String := "additionalProperties"
def ResponseFieldResult : String := "result"

/-- The two JSON-Schema keys that CleanSchemaForGemini removes. -/
def isBannedKey (k : String) : Bool :=
  k = SchemaFieldDollarSchema || k = SchemaFieldAdditionalProperties

mutual

/-- Embedding of the body of CleanSchemaForGemini from
src/translator/thought_signature.go applied to a non-nil Go map:
iterates over the fields, skips the two unsupported keys, recurses
into map values, and cleans object elements of array values. -/
def cleanFields : List (String × JSONValue) → List (String × JSONValue)
  | [] => []
  | (k, v) :: rest =>
    if isBannedKey k then cleanFields rest
    else (k, cleanFieldValue v) :: cleanFields rest

/-- The per-value dispatch of the CleanSchemaForGemini loop: map
values are cleaned recursively, array values are cleaned elementwise,
every other value is copied unchanged. -/
def cleanFieldValue : JSONValue → JSONValue
  | .obj fs => .obj (cleanFields fs)
  | .arr xs => .arr (cleanElems xs)
  | v => v

/-- Elementwise cleaning of an array value. -/
def cleanElems : List JSONValue → List JSONValue
  | [] => []
  | x :: rest => cleanElem x :: cleanElems rest

/-- A single array element: object elements are cleaned recursively,
all other elements (scalars, and also nested arrays) are kept as is. -/
def cleanElem : JSONValue → JSONValue
  | .obj fs => .obj (cleanFields fs)
  | v => v

end

/-- Embedding of CleanSchemaForGemini: the Option models the nil Go
map, which is returned unchanged. -/
def CleanSchemaForGemini : Option (List (String × JSONValue)) → Option (List (String × JSONValue))
  | none => none
  | some fs => some (cleanFields fs)

/- The Anthropic-side data model (types package, src/unnamed/part_002).
The Go field Type is rendered Type_ because Type is a Lean keyword. -/

structure AnthropicImageSource where
  Type_ : String := ""
  MediaType : String := ""
  Data : String := ""
deriving Repr, DecidableEq

structure AnthropicContentBlock where
  Type_ : String := ""
  Text : String := ""
  Source : Option AnthropicImageSource := none
  ID : String := ""
  Name : String := ""
  Input : List (String × JSONValue) := []
  ThoughtSignature : String := ""
  ToolUseID : String := ""
  Content : Option JSONValue := none
deriving Repr

structure AnthropicMessage where
  Role : String := ""
  Content : List AnthropicContentBlock := []
deriving Repr

structure AnthropicTool where
  Name : String := ""
  Description : String := ""
  InputSchema : List (String × JSONValue) := []
deriving Repr

structure AnthropicUsage where
  InputTokens : Int := 0
  OutputTokens : Int := 0
deriving Repr, DecidableEq

structure AnthropicResponse where
  ID : String := ""
  Type_ : String := ""
  Role : String := ""
  Content : List AnthropicContentBlock := []
  Usage : AnthropicUsage := {}
  Model : String := ""
  StopReason : String := ""
deriving Repr

structure AnthropicRequest where
  Messages : List AnthropicMessage := []
  System : Option JSONValue := none
  MaxTokens : Int := 0
  Tools : List AnthropicTool := []
  Model : String := ""
deriving Repr

/- The custom Gemini wire types with thought-signature support
(types package, src/unnamed/part_001). -/

structure GeminiFunctionCall where
  Name : String := ""
  Args : List (String × JSONValue) := []
deriving Repr

structure GeminiFunctionResponse where
  Name : String := ""
  Response : List (String × JSONValue) := []
deriving Repr

structure GeminiBlob where
  MimeType : String := ""
  Data : String := ""
deriving Repr

structure GeminiPart where
  Text : String := ""
  FunctionCall : Option GeminiFunctionCall := none
  FunctionResponse : Option GeminiFunctionResponse := none
  InlineData : Option GeminiBlob := none
  ThoughtSignature : String := ""
deriving Repr

structure GeminiContent where
  Role : String := ""
  Parts : List GeminiPart := []
deriving Repr

/- The request translator, src/translator/thought_signature.go.
Go maps used only through assignment and lookup (the tool map and the
thought-signature store) are embedded as functions from String to
Option String; assignment overwrites, exactly as in Go. -/

def emptyToolMap : String → Option String := fun _ => none

/-- One step of the first pass of ToCustomGeminiContents: a tool_use
block with a non-empty id and name records its name under its id. -/
def insertTool (tm : String → Option String) (b : AnthropicContentBlock) : String → Option String :=
  if b.Type_ = ContentTypeToolUse ∧ b.ID ≠ "" ∧ b.Name ≠ "" then
    fun k => if k = b.ID then some b.Name else tm k
  else tm

def buildToolMapBlocks : (String → Option String) → List AnthropicContentBlock → (String → Option String)
  | tm, [] => tm
  | tm, b :: rest => buildToolMapBlocks (insertTool tm b) rest

def buildToolMapMsgs : (String → Option String) → List AnthropicMessage → (String → Option String)
  | tm, [] => tm
  | tm, m :: rest => buildToolMapMsgs (buildToolMapBlocks tm m.Content) rest

/-- The first pass of ToCustomGeminiContents: a single forward pass
over all messages mapping every tool_use id to its tool name. -/
def buildToolMap (messages : List AnthropicMessage) : String → Option String :=
  buildToolMapMsgs emptyToolMap messages

/-- The correlation error text built by fmt.Errorf in
convertContentBlockToCustom. -/
def corrErr (id : String) : String :=
  "tool_result references unknown tool_use_id: " ++ id

/-- The content extracted from a tool_result block: the Content field
when non-nil, else the legacy Text field when non-empty, else nil. -/
def toolResultContent (block : AnthropicContentBlock) : JSONValue :=
  match block.Content with
  | some c => c
  | none => if block.Text ≠ "" then .str block.Text else .null

/-- Embedding of convertContentBlockToCustom: dispatch on the block
type; unrecognized types and empty bodies yield no part; a tool_result
with an id absent from the tool map is the single error case. -/
def convertContentBlockToCustom (block : AnthropicContentBlock)
    (toolMap : String → Option String) : Except String (Option GeminiPart) :=
  if block.Type_ = ContentTypeText ∨ block.Type_ = "" then
    (if block.Text ≠ "" then .ok (some { Text := block.Text }) else .ok none)
  else if block.Type_ = ContentTypeImage then
    (match block.Source with
     | some src =>
       if src.Data ≠ "" then
         .ok (some { InlineData := some { MimeType := src.MediaType, Data := src.Data } })
       else .ok none
     | none => .ok none)
  else if block.Type_ = ContentTypeToolUse then
    (if block.Name ≠ "" then
       .ok (some { FunctionCall := some { Name := block.Name, Args := block.Input },
                   ThoughtSignature := block.ThoughtSignature })
     else .ok none)
  else if block.Type_ = ContentTypeToolResult then
    (if block.ToolUseID ≠ "" then
       match toolMap block.ToolUseID with
       | none => .error (corrErr block.ToolUseID)
       | some toolName =>
         .ok (some { FunctionResponse :=
                       some { Name := toolName,
                              Response := [(ResponseFieldResult, toolResultContent block)] } })
     else .ok none)
  else .ok none

/-- The inner loop of ToCustomGeminiContents over one message:
converts every block, keeping the parts, stopping at the first
error. -/
def convertBlocks (tm : String → Option String) : List AnthropicContentBlock → Except String (List GeminiPart)
  | [] => .ok []
  | b :: rest =>
    match convertContentBlockToCustom b tm with
    | .error e => .error e
    | .ok none => convertBlocks tm rest
    | .ok (some p) =>
      match convertBlocks tm rest with
      | .error e => .error e
      | .ok ps => .ok (p :: ps)

/-- Role mapping of the second pass: assistant becomes model, any
other role is kept. -/
def mapRole (r : String) : String :=
  if r = RoleAssistant then RoleModel else r

/-- The second pass of ToCustomGeminiContents: per message, convert
the blocks and keep the message only when it produced at least one
part. -/
def convertMessages (tm : String → Option String) : List AnthropicMessage → Except String (List GeminiContent)
  | [] => .ok []
  | m :: rest =>
    match convertBlocks tm m.Content with
    | .error e => .error e
    | .ok parts =>
      match convertMessages tm rest with
      | .error e => .error e
      | .ok cs => .ok (if parts.isEmpty then cs else { Role := mapRole m.Role, Parts := parts } :: cs)

/-- Embedding of ToCustomGeminiContents. -/
def ToCustomGeminiContents (messages : List AnthropicMessage) : Except String (List GeminiContent) :=
  convertMessages (buildToolMap messages) messages

/- The genai-typed content produced by ToGeminiContents. The genai
Part interface is embedded as a sum; image bytes are lists of byte
values produced by the abstract base64 decoder. -/

inductive GenaiPart where
  | text (s : String)
  | functionCall (name : String) (args : List (String × JSONValue))
  | functionResponse (name : String) (response : List (String × JSONValue))
  | blob (mimeType : String) (data : List Nat)
deriving Repr

structure GenaiContent where
  Role : String := ""
  Parts : List GenaiPart := []
deriving Repr

/-- The prefix that fmt.Errorf prepends to a base64 decode failure in
ToGeminiContents. -/
def decodeErrPrefix : String := "failed to decode base64 image data: "

/-- The per-content loop of ToGeminiContents: the decode parameter
models base64.StdEncoding.DecodeString. -/
def genaiPartsOf (decode : String → Except String (List Nat)) : List GeminiPart → Except String (List GenaiPart)
  | [] => .ok []
  | p :: rest =>
    if p.Text ≠ "" then
      (genaiPartsOf decode rest).map (fun ps => .text p.Text :: ps)
    else match p.FunctionCall with
      | some fc => (genaiPartsOf decode rest).map (fun ps => .functionCall fc.Name fc.Args :: ps)
      | none =>
        match p.FunctionResponse with
        | some fr => (genaiPartsOf decode rest).map (fun ps => .functionResponse fr.Name fr.Response :: ps)
        | none =>
          match p.InlineData with
          | some bl =>
            (match decode bl.Data with
             | .error e => .error (decodeErrPrefix ++ e)
             | .ok bytes => (genaiPartsOf decode rest).map (fun ps => .blob bl.MimeType bytes :: ps))
          | none => genaiPartsOf decode rest

def genaiContentsOf (decode : String → Except String (List Nat)) : List GeminiContent → Except String (List GenaiContent)
  | [] => .ok []
  | cc :: rest =>
    match genaiPartsOf decode cc.Parts with
    | .error e => .error e
    | .ok parts =>
      (genaiContentsOf decode rest).map
        (fun cs => if parts.isEmpty then cs else { Role := cc.Role, Parts := parts } :: cs)

/-- Embedding of ToGeminiContents: convert through the custom
representation, then lower to genai parts, decoding inline images. -/
def ToGeminiContents (decode : String → Except String (List Nat))
    (messages : List AnthropicMessage) : Except String (List GenaiContent) :=
  match ToCustomGeminiContents messages with
  | .error e => .error e
  | .ok ccs => genaiContentsOf decode ccs

/- The genai schema dialect (convertJSONSchemaToGemini and
ToGeminiTools). genai.Schema is recursive, so it is an inductive with
one constructor and projection functions; the Go field Type is
rendered TypeTag. -/

inductive GenaiType where
  | unspecified
  | stringType
  | numberType
  | integerType
  | booleanType
  | arrayType
  | objectType
deriving Repr, DecidableEq

/-- The type switch of convertJSONSchemaToGemini: case-insensitive,
unrecognized strings leave the zero value TypeUnspecified. -/
def parseSchemaType (s : String) : GenaiType :=
  let l := s.toLower
  if l = "string" then .stringType
  else if l = "number" then .numberType
  else if l = "integer" then .integerType
  else if l = "boolean" then .booleanType
  else if l = "array" then .arrayType
  else if l = "object" then .objectType
  else .unspecified

/-- The make-then-assign loop that Go runs over enum and required
arrays: the slice is allocated at the full input length and an index
is written only when the entry is a string, so non-string entries
keep the zero value, the empty string. -/
def stringSliceOf (xs : List JSONValue) : List String :=
  xs.map fun x => match x with | .str s => s | _ => ""

inductive GenaiSchema where
  | mk (typeTag : GenaiType) (description : String) (enumVals : List String)
       (items : Option GenaiSchema)
       (properties : Option (List (String × GenaiSchema)))
       (required : List String)
deriving Repr

def GenaiSchema.TypeTag : GenaiSchema → GenaiType
  | .mk t _ _ _ _ _ => t

def GenaiSchema.Description : GenaiSchema → String
  | .mk _ d _ _ _ _ => d

def GenaiSchema.Enum : GenaiSchema → List String
  | .mk _ _ e _ _ _ => e

def GenaiSchema.Items : GenaiSchema → Option GenaiSchema
  | .mk _ _ _ i _ _ => i

def GenaiSchema.Properties : GenaiSchema → Option (List (String × GenaiSchema))
  | .mk _ _ _ _ p _ => p

def GenaiSchema.Required : GenaiSchema → List String
  | .mk _ _ _ _ _ r => r

/-- A value found by lookupJ sits inside the list, so it is smaller;
used for the termination of the schema converter. -/
def lookupJ_size_lt : ∀ {k : String} {fs : List (String × JSONValue)} {v : JSONValue},
    lookupJ k fs = some v → sizeOf v < sizeOf fs := by
  intro k fs
  induction fs with
  | nil => intro v h; simp [lookupJ] at h
  | cons hd tl ih =>
    intro v h
    obtain ⟨k', v'⟩ := hd
    by_cases hk : k' = k
    · simp [lookupJ, hk] at h
      subst h
      simp
      omega
    · simp [lookupJ, hk] at h
      have := ih h
      simp
      omega

mutual

/-- Embedding of convertJSONSchemaToGemini: reads type, description,
enum, items, properties and required from the JSON-Schema node,
recursing into items and into map-valued properties. -/
def convertJSONSchemaToGemini (schema : List (String × JSONValue)) : GenaiSchema :=
  GenaiSchema.mk
    (match lookupJ "type" schema with
     | some (.str s) => parseSchemaType s
     | _ => .unspecified)
    (match lookupJ "description" schema with
     | some (.str s) => s
     | _ => "")
    (match lookupJ "enum" schema with
     | some (.arr xs) => stringSliceOf xs
     | _ => [])
    (match h : lookupJ "items" schema with
     | some (.obj m) => some (convertJSONSchemaToGemini m)
     | _ => none)
    (match h : lookupJ "properties" schema with
     | some (.obj props) => some (convertProps props)
     | _ => none)
    (match lookupJ "required" schema with
     | some (.arr xs) => stringSliceOf xs
     | _ => [])
termination_by sizeOf schema
decreasing_by
  · have := lookupJ_size_lt h
    simp at this
    omega
  · have := lookupJ_size_lt h
    simp at this
    omega

/-- The properties loop shared by convertJSONSchemaToGemini and
ToGeminiTools: map-valued entries are converted, others skipped. -/
def convertProps : List (String × JSONValue) → List (String × GenaiSchema)
  | [] => []
  | (n, .obj pm) :: rest => (n, convertJSONSchemaToGemini pm) :: convertProps rest
  | _ :: rest => convertProps rest
termination_by l => sizeOf l
decreasing_by
  all_goals simp
  all_goals omega

end

structure GenaiFunctionDeclaration where
  Name : String := ""
  Description : String := ""
  Parameters : GenaiSchema
deriving Repr

structure GenaiTool where
  FunctionDeclarations : List GenaiFunctionDeclaration := []
deriving Repr

/-- The parameter schema that ToGeminiTools builds for one tool:
type object unconditionally, properties and required read from the
top level of input_schema, every other field left at its zero
value. -/
def toolSchemaOf (inputSchema : List (String × JSONValue)) : GenaiSchema :=
  GenaiSchema.mk .objectType "" []
    none
    (match lookupJ "properties" inputSchema with
     | some (.obj props) => some (convertProps props)
     | _ => none)
    (match lookupJ "required" inputSchema with
     | some (.arr xs) => stringSliceOf xs
     | _ => [])

/-- Embedding of ToGeminiTools: nil (none) for an empty tool list,
otherwise one genai.Tool holding a declaration per tool. The Go
error result is always nil and is omitted. -/
def ToGeminiTools (tools : List AnthropicTool) : Option (List GenaiTool) :=
  if tools.isEmpty then none
  else some [{ FunctionDeclarations :=
                 tools.map fun t =>
                   { Name := t.Name, Description := t.Description,
                     Parameters := toolSchemaOf t.InputSchema } }]

/- The backend response types of src/translator/gemini_http.go and
the response translators. uuid.New is modelled by an abstract supply
of identifiers indexed by the order of the calls the Go code makes:
index 0 is the response id, later indices are minted for function
calls in part order. -/

structure UsageMetadata where
  PromptTokenCount : Int := 0
  CandidatesTokenCount : Int := 0
  TotalTokenCount : Int := 0
deriving Repr, DecidableEq

structure Candidate where
  Content : Option GeminiContent := none
  FinishReason : String := ""
deriving Repr

structure GenerateContentResponse where
  Candidates : List Candidate := []
  UsageMetadata : Option UsageMetadata := none
deriving Repr

/-- Embedding of convertCustomGeminiPart; fresh is the identifier the
Go code would mint with uuid.New for a function call. -/
def convertCustomGeminiPart (fresh : String) (part : GeminiPart) : Option AnthropicContentBlock :=
  if part.Text ≠ "" then
    some { Type_ := ContentTypeText, Text := part.Text }
  else match part.FunctionCall with
    | some fc =>
      some { Type_ := ContentTypeToolUse, ID := fresh, Name := fc.Name,
             Input := fc.Args, ThoughtSignature := part.ThoughtSignature }
    | none => none

/-- True when converting the part consumes a minted identifier. -/
def partMintsId (p : GeminiPart) : Bool :=
  p.Text = "" && p.FunctionCall.isSome

def collectCustomBlocks (ids : Nat → String) : Nat → List GeminiPart → List AnthropicContentBlock
  | _, [] => []
  | n, p :: rest =>
    match convertCustomGeminiPart (ids n) p with
    | some b => b :: collectCustomBlocks ids (if partMintsId p then n + 1 else n) rest
    | none => collectCustomBlocks ids n rest

/-- Embedding of ToAnthropicResponseFromCustom. The Go function
returns a nil error unconditionally; the Except mirrors its
two-valued signature. -/
def ToAnthropicResponseFromCustom (resp : GenerateContentResponse) (model : String)
    (ids : Nat → String) : Except String AnthropicResponse :=
  .ok {
    ID := ids 0
    Type_ := ResponseTypeMessage
    Role := RoleAssistant
    Model := model
    Content :=
      match resp.Candidates with
      | [] => []
      | cand :: _ =>
        match cand.Content with
        | some c => collectCustomBlocks ids 1 c.Parts
        | none => []
    StopReason :=
      match resp.Candidates with
      | [] => ""
      | cand :: _ => if cand.FinishReason ≠ "" then StopReasonEndTurn else ""
    Usage :=
      match resp.UsageMetadata with
      | some um => { InputTokens := um.PromptTokenCount, OutputTokens := um.CandidatesTokenCount }
      | none => {} }

/- The genai-typed response path (ToAnthropicResponse). The genai
FinishReason is an integer enumeration whose zero value means
unspecified. -/

structure GenaiCandidate where
  Content : Option GenaiContent := none
  FinishReason : Nat := 0
deriving Repr

structure GenaiGenerateContentResponse where
  Candidates : List GenaiCandidate := []
  UsageMetadata : Option UsageMetadata := none
deriving Repr

/-- Embedding of convertGeminiPart: only text and function-call parts
are translated; every other part kind yields nothing. -/
def convertGeminiPart (fresh : String) : GenaiPart → Option AnthropicContentBlock
  | .text s => some { Type_ := ContentTypeText, Text := s }
  | .functionCall n args => some { Type_ := ContentTypeToolUse, ID := fresh, Name := n, Input := args }
  | _ => none

def genaiPartMintsId : GenaiPart → Bool
  | .functionCall _ _ => true
  | _ => false

def collectGenaiBlocks (ids : Nat → String) : Nat → List GenaiPart → List AnthropicContentBlock
  | _, [] => []
  | n, p :: rest =>
    match convertGeminiPart (ids n) p with
    | some b => b :: collectGenaiBlocks ids (if genaiPartMintsId p then n + 1 else n) rest
    | none => collectGenaiBlocks ids n rest

/-- Embedding of ToAnthropicResponse (the genai path). -/
def ToAnthropicResponse (resp : GenaiGenerateContentResponse) (model : String)
    (ids : Nat → String) : Except String AnthropicResponse :=
  .ok {
    ID := ids 0
    Type_ := ResponseTypeMessage
    Role := RoleAssistant
    Model := model
    Content :=
      match resp.Candidates with
      | [] => []
      | cand :: _ =>
        match cand.Content with
        | some c => collectGenaiBlocks ids 1 c.Parts
        | none => []
    StopReason :=
      match resp.Candidates with
      | [] => ""
      | cand :: _ => if cand.FinishReason ≠ 0 then StopReasonEndTurn else ""
    Usage :=
      match resp.UsageMetadata with
      | some um => { InputTokens := um.PromptTokenCount, OutputTokens := um.CandidatesTokenCount }
      | none => {} }

/- The thought-signature store (spec section 4.4). Its server-side
implementation file is not under src/ (only its test, in
src/unnamed/part_000), so the two methods are modelled from the
spec. The store is the map from tool-call id to signature. -/

/-- Modelled from the spec: the per-block step of
cacheThoughtSignatures. A tool_use content block carrying a non-empty
thought signature stores the signature under the block id,
overwriting any existing entry for that key; other blocks leave the
store unchanged. -/
def cacheStep (st : String → Option String) (b : AnthropicContentBlock) : String → Option String :=
  if b.Type_ = ContentTypeToolUse ∧ b.ThoughtSignature ≠ "" then
    fun k => if k = b.ID then some b.ThoughtSignature else st k
  else st

/-- Modelled from the spec: cacheThoughtSignatures walks every
content block of the response in order. -/
def cacheThoughtSignatures (store : String → Option String) (resp : AnthropicResponse) : String → Option String :=
  resp.Content.foldl cacheStep store

/-- Modelled from the spec: the per-block step of
injectThoughtSignatures. A tool_use block whose signature field is
empty receives the stored value for its id when one exists and is
left unchanged otherwise; no error is possible. -/
def injectBlockSignature (store : String → Option String) (b : AnthropicContentBlock) : AnthropicContentBlock :=
  if b.Type_ = ContentTypeToolUse ∧ b.ThoughtSignature = "" then
    match store b.ID with
    | some s => { b with ThoughtSignature := s }
    | none => b
  else b

/-- Modelled from the spec: injectThoughtSignatures walks every
tool_use content block across every message of the request. -/
def injectThoughtSignatures (store : String → Option String) (req : AnthropicRequest) : AnthropicRequest :=
  { req with Messages :=
      req.Messages.map fun m => { m with Content := m.Content.map (injectBlockSignature store) } }

/- Specification-side predicates used to state the claims. -/

/-- Whether converting the block yields a part (and not an error). -/
def producesPart (tm : String → Option String) (b : AnthropicContentBlock) : Bool :=
  match convertContentBlockToCustom b tm with
  | .ok (some _) => true
  | _ => false

/-- Whether some block of the message yields a part. -/
def msgProducesPart (tm : String → Option String) (m : AnthropicMessage) : Bool :=
  m.Content.any (producesPart tm)

/-- The id is declared by some tool_use block with a non-empty name
anywhere in the message list. -/
def isKnownToolUseId (messages : List AnthropicMessage) (id : String) : Prop :=
  ∃ m ∈ messages, ∃ b ∈ m.Content,
    b.Type_ = ContentTypeToolUse ∧ b.ID = id ∧ b.Name ≠ ""

/-- Some tool_result block carries a non-empty tool_use_id that no
tool_use block with a non-empty name declares. -/
def hasUnknownToolResult (messages : List AnthropicMessage) : Prop :=
  ∃ m ∈ messages, ∃ b ∈ m.Content,
    b.Type_ = ContentTypeToolResult ∧ b.ToolUseID ≠ "" ∧
    ¬ isKnownToolUseId messages b.ToolUseID

/- The reachable-position predicate for the sanitizer claims: true
when no banned key occurs at the top level, in nested object values,
or in object elements of array values, at any depth. -/

mutual

def noBannedFields : List (String × JSONValue) → Bool
  | [] => true
  | (k, v) :: rest => !isBannedKey k && noBannedFieldValue v && noBannedFields rest

def noBannedFieldValue : JSONValue → Bool
  | .obj fs => noBannedFields fs
  | .arr xs => noBannedElems xs
  | _ => true

def noBannedElems : List JSONValue → Bool
  | [] => true
  | x :: rest => noBannedElem x && noBannedElems rest

def noBannedElem : JSONValue → Bool
  | .obj fs => noBannedFields fs
  | _ => true

end

/-! Theorems. First the helper lemmas about the sanitizer, then the
claim theorems in order. -/

theorem cleanFields_keys (fs : List (String × JSONValue)) :
    (cleanFields fs).map Prod.fst = (fs.map Prod.fst).filter (fun k => !isBannedKey k) := by
  induction fs with
  | nil => rfl
  | cons hd tl ih =>
    obtain ⟨k, v⟩ := hd
    by_cases hb : isBannedKey k
    · simp [cleanFields, hb, ih]
    · simp [cleanFields, hb, ih]

theorem cleanFields_mem (fs : List (String × JSONValue)) (k : String) (v : JSONValue)
    (hb : isBannedKey k = false) (hm : (k, v) ∈ fs) :
    (k, cleanFieldValue v) ∈ cleanFields fs := by
  induction fs with
  | nil => cases hm
  | cons hd tl ih =>
    obtain ⟨k', v'⟩ := hd
    rcases List.mem_cons.mp hm with heq | htl
    · obtain ⟨hk, hv⟩ := Prod.mk.injEq .. ▸ heq
      subst hk
      subst hv
      simp [cleanFields, hb]
    · by_cases hb' : isBannedKey k'
      · simpa [cleanFields, hb'] using ih htl
      · simp [cleanFields, hb']
        exact Or.inr (ih htl)

theorem cleanElem_scalar (v : JSONValue)
    (ho : ∀ fs, v ≠ JSONValue.obj fs) (ha : ∀ xs, v ≠ JSONValue.arr xs) :
    cleanElem v = v := by
  cases v with
  | obj fs => exact absurd rfl (ho fs)
  | arr xs => exact absurd rfl (ha xs)
  | str s => rfl
  | num n => rfl
  | boolVal b => rfl
  | null => rfl

theorem cleanFields_idem : ∀ fs, cleanFields (cleanFields fs) = cleanFields fs := by
  apply cleanFields.induct
    (fun fs => cleanFields (cleanFields fs) = cleanFields fs)
    (fun v => cleanFieldValue (cleanFieldValue v) = cleanFieldValue v)
    (fun xs => cleanElems (cleanElems xs) = cleanElems xs)
    (fun v => cleanElem (cleanElem v) = cleanElem v)
  · intro fs h
    simp [cleanFieldValue, h]
  · intro xs h
    simp [cleanFieldValue, h]
  · intro v h1 h2
    cases v with
    | obj fs => exact absurd rfl (h1 fs)
    | arr xs => exact absurd rfl (h2 xs)
    | str s => rfl
    | num n => rfl
    | boolVal b => rfl
    | null => rfl
  · intro fs h
    simp [cleanElem, h]
  · intro v h1
    cases v with
    | obj fs => exact absurd rfl (h1 fs)
    | arr xs => rfl
    | str s => rfl
    | num n => rfl
    | boolVal b => rfl
    | null => rfl
  · rfl
  · intro x rest h1 h2
    simp [cleanElems, h1, h2]
  · rfl
  · intro k v rest hb ih
    simp [cleanFields, hb, ih]
  · intro k v rest hb ihv ih
    simp [cleanFields, hb, ihv, ih]

theorem cleanFields_noBanned : ∀ fs, noBannedFields (cleanFields fs) = true := by
  apply cleanFields.induct
    (fun fs => noBannedFields (cleanFields fs) = true)
    (fun v => noBannedFieldValue (cleanFieldValue v) = true)
    (fun xs => noBannedElems (cleanElems xs) = true)
    (fun v => noBannedElem (cleanElem v) = true)
  · intro fs h
    simp [cleanFieldValue, noBannedFieldValue, h]
  · intro xs h
    simp [cleanFieldValue, noBannedFieldValue, h]
  · intro v h1 h2
    cases v with
    | obj fs => exact absurd rfl (h1 fs)
    | arr xs => exact absurd rfl (h2 xs)
    | str s => rfl
    | num n => rfl
    | boolVal b => rfl
    | null => rfl
  · intro fs h
    simp [cleanElem, noBannedElem, h]
  · intro v h1
    cases v with
    | obj fs => exact absurd rfl (h1 fs)
    | arr xs => rfl
    | str s => rfl
    | num n => rfl
    | boolVal b => rfl
    | null => rfl
  · rfl
  · intro x rest h1 h2
    simp [cleanElems, noBannedElems, h1, h2]
  · rfl
  · intro k v rest hb ih
    simp [cleanFields, hb, ih]
  · intro k v rest hb ihv ih
    simp [cleanFields, noBannedFields, hb, ihv, ih]

/-- Claim C5: CleanSchemaForGemini removes exactly the dollar-schema
and additionalProperties keys: the surviving top-level keys are
exactly the non-banned input keys in order; every kept key maps to
the recursively cleaned value; scalar array elements are untouched;
and no banned key remains at any reachable position of the output
(top level, nested object values, object elements of array values,
at every depth). -/
theorem cleanSchema_removes_exactly_banned_keys :
    (∀ fs : List (String × JSONValue),
        (cleanFields fs).map Prod.fst = (fs.map Prod.fst).filter (fun k => !isBannedKey k))
    ∧ (∀ (fs : List (String × JSONValue)) (k : String) (v : JSONValue),
        isBannedKey k = false → (k, v) ∈ fs → (k, cleanFieldValue v) ∈ cleanFields fs)
    ∧ (∀ v : JSONValue,
        (∀ fs, v ≠ JSONValue.obj fs) → (∀ xs, v ≠ JSONValue.arr xs) → cleanElem v = v)
    ∧ (∀ fs : List (String × JSONValue), noBannedFields (cleanFields fs) = true) :=
  ⟨cleanFields_keys, cleanFields_mem, cleanElem_scalar, cleanFields_noBanned⟩

/-- Witness for claim C5 at a concrete schema carrying both banned
keys, a nested object, and a scalar array element. -/
theorem cleanSchema_removes_exactly_banned_keys_witness :
    ((cleanFields [("$schema", JSONValue.str "d"), ("type", JSONValue.str "object")]).map Prod.fst
        = ([("$schema", JSONValue.str "d"), ("type", JSONValue.str "object")].map Prod.fst).filter
            (fun k => !isBannedKey k))
    ∧ ("type", cleanFieldValue (JSONValue.str "object"))
        ∈ cleanFields [("$schema", JSONValue.str "d"), ("type", JSONValue.str "object")]
    ∧ cleanElem (JSONValue.str "a") = JSONValue.str "a"
    ∧ noBannedFields (cleanFields [("$schema", JSONValue.str "d"), ("type", JSONValue.str "object")]) = true :=
  ⟨cleanSchema_removes_exactly_banned_keys.1 _,
   cleanSchema_removes_exactly_banned_keys.2.1 _ "type" _ (by rfl) (by simp),
   cleanSchema_removes_exactly_banned_keys.2.2.1 _ (by simp) (by simp),
   cleanSchema_removes_exactly_banned_keys.2.2.2 _⟩

/-- Claim C6: CleanSchemaForGemini is idempotent, and the absent
(nil) schema is passed through unchanged. -/
theorem cleanSchema_idempotent_and_nil_noop :
    (∀ x : Option (List (String × JSONValue)),
        CleanSchemaForGemini (CleanSchemaForGemini x) = CleanSchemaForGemini x)
    ∧ CleanSchemaForGemini none = none := by
  constructor
  · intro x
    cases x with
    | none => rfl
    | some fs => simp [CleanSchemaForGemini, cleanFields_idem]
  · rfl

/-- Counterexample for claim C4: on an enum array holding a
non-string entry, convertJSONSchemaToGemini does not drop the entry;
it keeps a slot holding the empty string, so the output is longer
than the list of string-valued entries and differs from it. -/
theorem enum_nonstring_entries_not_dropped_cex :
    (convertJSONSchemaToGemini
        [("enum", JSONValue.arr [JSONValue.str "red", JSONValue.num 42, JSONValue.str "blue"])]).Enum
      = ["red", "", "blue"]
    ∧ ([JSONValue.str "red", JSONValue.num 42, JSONValue.str "blue"].filterMap
          (fun x => match x with | JSONValue.str s => some s | _ => none))
      = ["red", "blue"]
    ∧ (convertJSONSchemaToGemini
        [("enum", JSONValue.arr [JSONValue.str "red", JSONValue.num 42, JSONValue.str "blue"])]).Enum
      ≠ ["red", "blue"] := by
  have h : (convertJSONSchemaToGemini
      [("enum", JSONValue.arr [JSONValue.str "red", JSONValue.num 42, JSONValue.str "blue"])]).Enum
      = ["red", "", "blue"] := by
    rw [convertJSONSchemaToGemini]
    rfl
  refine ⟨h, by rfl, ?_⟩
  rw [h]
  decide

/-- Claim C4 (amended): for every schema whose enum (resp. required)
key holds an array, the produced Enum (resp. Required) list has the
same length as that array; string entries are kept in place and every
non-string entry is replaced by the empty string (the Go zero value
left by the make-then-assign loop), not dropped. -/
theorem enum_required_nonstring_entries_become_empty :
    ∀ (fs : List (String × JSONValue)) (xs : List JSONValue),
      (lookupJ "enum" fs = some (JSONValue.arr xs) →
        (convertJSONSchemaToGemini fs).Enum
            = xs.map (fun x => match x with | JSONValue.str s => s | _ => "")
          ∧ (convertJSONSchemaToGemini fs).Enum.length = xs.length)
      ∧ (lookupJ "required" fs = some (JSONValue.arr xs) →
        (convertJSONSchemaToGemini fs).Required
            = xs.map (fun x => match x with | JSONValue.str s => s | _ => "")
          ∧ (convertJSONSchemaToGemini fs).Required.length = xs.length) := by
  intro fs xs
  constructor
  · intro h
    rw [convertJSONSchemaToGemini]
    simp [GenaiSchema.Enum, h, stringSliceOf]
  · intro h
    rw [convertJSONSchemaToGemini]
    simp [GenaiSchema.Required, h, stringSliceOf]

/-- Witness for the amended claim C4 at a schema with one string and
one numeric entry in both enum and required. -/
theorem enum_required_nonstring_entries_become_empty_witness :
    ((convertJSONSchemaToGemini
        [("enum", JSONValue.arr [JSONValue.str "red", JSONValue.num 42]),
         ("required", JSONValue.arr [JSONValue.str "a", JSONValue.num 1])]).Enum
        = [JSONValue.str "red", JSONValue.num 42].map
            (fun x => match x with | JSONValue.str s => s | _ => "")
      ∧ (convertJSONSchemaToGemini
          [("enum", JSONValue.arr [JSONValue.str "red", JSONValue.num 42]),
           ("required", JSONValue.arr [JSONValue.str "a", JSONValue.num 1])]).Enum.length
        = [JSONValue.str "red", JSONValue.num 42].length)
    ∧ ((convertJSONSchemaToGemini
        [("enum", JSONValue.arr [JSONValue.str "red", JSONValue.num 42]),
         ("required", JSONValue.arr [JSONValue.str "a", JSONValue.num 1])]).Required
        = [JSONValue.str "a", JSONValue.num 1].map
            (fun x => match x with | JSONValue.str s => s | _ => "")
      ∧ (convertJSONSchemaToGemini
          [("enum", JSONValue.arr [JSONValue.str "red", JSONValue.num 42]),
           ("required", JSONValue.arr [JSONValue.str "a", JSONValue.num 1])]).Required.length
        = [JSONValue.str "a", JSONValue.num 1].length) :=
  ⟨(enum_required_nonstring_entries_become_empty _ _).1 (by rfl),
   (enum_required_nonstring_entries_become_empty _ _).2 (by rfl)⟩

/-- Claim C7: ToGeminiTools forces the top-level parameter schema
type to object regardless of the declared type, leaves description,
enum and items of the parameter schema at their zero values, and
reads only the top-level properties and required keys of
input_schema. -/
theorem toGeminiTools_object_type_and_top_level_reads :
    (∀ (tools : List AnthropicTool) (gts : List GenaiTool),
        ToGeminiTools tools = some gts →
        ∀ gt ∈ gts, ∀ d ∈ gt.FunctionDeclarations,
          d.Parameters.TypeTag = GenaiType.objectType
          ∧ d.Parameters.Description = ""
          ∧ d.Parameters.Enum = []
          ∧ d.Parameters.Items = none)
    ∧ (∀ (nm ds : String) (s₁ s₂ : List (String × JSONValue)),
        lookupJ "properties" s₁ = lookupJ "properties" s₂ →
        lookupJ "required" s₁ = lookupJ "required" s₂ →
        ToGeminiTools [{ Name := nm, Description := ds, InputSchema := s₁ }]
          = ToGeminiTools [{ Name := nm, Description := ds, InputSchema := s₂ }]) := by
  constructor
  · intro tools gts h gt hgt d hd
    by_cases he : tools.isEmpty
    · simp [ToGeminiTools, he] at h
    · simp [ToGeminiTools, he] at h
      subst h
      simp at hgt
      subst hgt
      simp at hd
      obtain ⟨t, ht, hdt⟩ := hd
      subst hdt
      exact ⟨rfl, rfl, rfl, rfl⟩
  · intro nm ds s₁ s₂ h1 h2
    simp [ToGeminiTools, toolSchemaOf, h1, h2]

/-- Witness for claim C7: a tool whose input_schema declares type
string still gets an object-typed parameter schema, and two schemas
differing only outside properties and required translate alike. -/
theorem toGeminiTools_object_type_and_top_level_reads_witness :
    ((toolSchemaOf [("type", JSONValue.str "string")]).TypeTag = GenaiType.objectType
      ∧ (toolSchemaOf [("type", JSONValue.str "string")]).Description = ""
      ∧ (toolSchemaOf [("type", JSONValue.str "string")]).Enum = []
      ∧ (toolSchemaOf [("type", JSONValue.str "string")]).Items = none)
    ∧ ToGeminiTools [{ Name := "f", Description := "",
                       InputSchema := [("type", JSONValue.str "string")] }]
        = ToGeminiTools [{ Name := "f", Description := "", InputSchema := [] }] :=
  ⟨toGeminiTools_object_type_and_top_level_reads.1
      [{ Name := "f", Description := "", InputSchema := [("type", JSONValue.str "string")] }]
      [{ FunctionDeclarations := [{ Name := "f", Description := "",
                                    Parameters := toolSchemaOf [("type", JSONValue.str "string")] }] }]
      (by rfl)
      { FunctionDeclarations := [{ Name := "f", Description := "",
                                   Parameters := toolSchemaOf [("type", JSONValue.str "string")] }] }
      (by simp)
      { Name := "f", Description := "",
        Parameters := toolSchemaOf [("type", JSONValue.str "string")] }
      (by simp),
   toGeminiTools_object_type_and_top_level_reads.2 "f" "" _ _ (by rfl) (by rfl)⟩

/-- Claim C9: in both response translators the produced stop_reason
is the fixed end_turn value exactly when the first candidate reports
a non-empty (custom path) or non-zero (genai path) finish reason, is
left unset otherwise, and no finish-reason sub-kind is ever
distinguished: end_turn and unset are the only possible values. -/
theorem stop_reason_end_turn_iff_finish_reason :
    (∀ (resp : GenerateContentResponse) (model : String) (ids : Nat → String),
        ∃ r, ToAnthropicResponseFromCustom resp model ids = .ok r
          ∧ ((r.StopReason = StopReasonEndTurn)
               ↔ (∃ c cs, resp.Candidates = c :: cs ∧ c.FinishReason ≠ ""))
          ∧ (r.StopReason = StopReasonEndTurn ∨ r.StopReason = ""))
    ∧ (∀ (resp : GenaiGenerateContentResponse) (model : String) (ids : Nat → String),
        ∃ r, ToAnthropicResponse resp model ids = .ok r
          ∧ ((r.StopReason = StopReasonEndTurn)
               ↔ (∃ c cs, resp.Candidates = c :: cs ∧ c.FinishReason ≠ 0))
          ∧ (r.StopReason = StopReasonEndTurn ∨ r.StopReason = "")) := by
  constructor
  · intro resp model ids
    refine ⟨_, rfl, ?_, ?_⟩
    · cases hc : resp.Candidates with
      | nil => simp [hc, StopReasonEndTurn]
      | cons c cs =>
        by_cases hf : c.FinishReason = ""
        · simp [hc, hf, StopReasonEndTurn]
        · simp [hc, hf]
    · cases hc : resp.Candidates with
      | nil => simp [hc]
      | cons c cs =>
        by_cases hf : c.FinishReason = ""
        · simp [hc, hf]
        · simp [hc, hf]
  · intro resp model ids
    refine ⟨_, rfl, ?_, ?_⟩
    · cases hc : resp.Candidates with
      | nil => simp [hc, StopReasonEndTurn]
      | cons c cs =>
        by_cases hf : c.FinishReason = 0
        · simp [hc, hf, StopReasonEndTurn]
        · simp [hc, hf]
    · cases hc : resp.Candidates with
      | nil => simp [hc]
      | cons c cs =>
        by_cases hf : c.FinishReason = 0
        · simp [hc, hf]
        · simp [hc, hf]

/-- Claim C10: the response translator reads only the first
candidate; zero candidates yield an empty content list with no
error; absent usage metadata yields zero input and output tokens. -/
theorem response_first_candidate_and_defaults :
    (∀ (um : Option UsageMetadata) (model : String) (ids : Nat → String),
        ∃ r, ToAnthropicResponseFromCustom { Candidates := [], UsageMetadata := um } model ids = .ok r
          ∧ r.Content = [])
    ∧ (∀ (cands : List Candidate) (model : String) (ids : Nat → String),
        ∃ r, ToAnthropicResponseFromCustom { Candidates := cands, UsageMetadata := none } model ids = .ok r
          ∧ r.Usage = { InputTokens := 0, OutputTokens := 0 })
    ∧ (∀ (c : Candidate) (rest : List Candidate) (um : Option UsageMetadata)
          (model : String) (ids : Nat → String),
        ToAnthropicResponseFromCustom { Candidates := c :: rest, UsageMetadata := um } model ids
          = ToAnthropicResponseFromCustom { Candidates := [c], UsageMetadata := um } model ids) := by
  refine ⟨?_, ?_, ?_⟩
  · intro um model ids
    exact ⟨_, rfl, rfl⟩
  · intro cands model ids
    refine ⟨_, rfl, ?_⟩
    cases cands <;> rfl
  · intro c rest um model ids
    rfl

/- Helper lemmas for the correlation claims. -/

theorem convertBlock_error_char (b : AnthropicContentBlock) (tm : String → Option String)
    (e : String) (h : convertContentBlockToCustom b tm = .error e) :
    b.Type_ = ContentTypeToolResult ∧ b.ToolUseID ≠ "" ∧
    tm b.ToolUseID = none ∧ e = corrErr b.ToolUseID := by
  unfold convertContentBlockToCustom at h
  split_ifs at h <;>
    first
      | (split at h <;> first | (split_ifs at h <;> simp_all) | simp_all)
      | simp_all

theorem convertBlock_ok_total (b : AnthropicContentBlock) (tm : String → Option String)
    (hk : b.Type_ = ContentTypeToolResult → b.ToolUseID ≠ "" → tm b.ToolUseID ≠ none) :
    ∃ p, convertContentBlockToCustom b tm = .ok p := by
  cases h : convertContentBlockToCustom b tm with
  | ok p => exact ⟨p, rfl⟩
  | error e =>
    obtain ⟨h1, h2, h3, _⟩ := convertBlock_error_char b tm e h
    exact absurd h3 (hk h1 h2)

theorem convertBlock_toolResult_unknown (b : AnthropicContentBlock) (tm : String → Option String)
    (htype : b.Type_ = ContentTypeToolResult) (hne : b.ToolUseID ≠ "")
    (htm : tm b.ToolUseID = none) :
    convertContentBlockToCustom b tm = .error (corrErr b.ToolUseID) := by
  simp [convertContentBlockToCustom, htype, hne, htm,
        ContentTypeText, ContentTypeImage, ContentTypeToolUse, ContentTypeToolResult]

theorem convertBlocks_error_mem (tm : String → Option String) :
    ∀ (bs : List AnthropicContentBlock) (e : String),
      convertBlocks tm bs = .error e →
      ∃ b ∈ bs, convertContentBlockToCustom b tm = .error e := by
  intro bs
  induction bs with
  | nil => intro e h; simp [convertBlocks] at h
  | cons b rest ih =>
    intro e h
    simp only [convertBlocks] at h
    cases hc : convertContentBlockToCustom b tm with
    | error e' =>
      rw [hc] at h
      obtain rfl : e' = e := by simpa using h
      exact ⟨b, List.mem_cons_self b rest, hc⟩
    | ok p =>
      rw [hc] at h
      cases p with
      | none =>
        obtain ⟨b', hb', he'⟩ := ih e h
        exact ⟨b', List.mem_cons_of_mem b hb', he'⟩
      | some part =>
        cases hr : convertBlocks tm rest with
        | error e' =>
          rw [hr] at h
          obtain rfl : e' = e := by simpa using h
          obtain ⟨b', hb', he'⟩ := ih _ hr
          exact ⟨b', List.mem_cons_of_mem b hb', he'⟩
        | ok ps =>
          rw [hr] at h
          simp at h

theorem convertBlocks_ok_each (tm : String → Option String) :
    ∀ (bs : List AnthropicContentBlock) (ps : List GeminiPart),
      convertBlocks tm bs = .ok ps →
      ∀ b ∈ bs, ∃ p, convertContentBlockToCustom b tm = .ok p := by
  intro bs
  induction bs with
  | nil => intro ps _ b hb; cases hb
  | cons b0 rest ih =>
    intro ps h b hb
    simp only [convertBlocks] at h
    cases hc : convertContentBlockToCustom b0 tm with
    | error e' => rw [hc] at h; simp at h
    | ok p0 =>
      rw [hc] at h
      rcases List.mem_cons.mp hb with rfl | hbr
      · exact ⟨p0, hc⟩
      · cases p0 with
        | none => exact ih ps h b hbr
        | some part =>
          cases hr : convertBlocks tm rest with
          | error e' => rw [hr] at h; simp at h
          | ok ps' => exact ih ps' hr b hbr

theorem convertBlocks_ok_total (tm : String → Option String)
    (bs : List AnthropicContentBlock)
    (h : ∀ b ∈ bs, ∀ e, convertContentBlockToCustom b tm ≠ .error e) :
    ∃ ps, convertBlocks tm bs = .ok ps := by
  cases hr : convertBlocks tm bs with
  | ok ps => exact ⟨ps, rfl⟩
  | error e =>
    obtain ⟨b, hb, he⟩ := convertBlocks_error_mem tm bs e hr
    exact absurd he (h b hb e)

theorem convertMessages_error (tm : String → Option String) :
    ∀ (ms : List AnthropicMessage) (e : String),
      convertMessages tm ms = .error e →
      ∃ m ∈ ms, convertBlocks tm m.Content = .error e := by
  intro ms
  induction ms with
  | nil => intro e h; simp [convertMessages] at h
  | cons m rest ih =>
    intro e h
    simp only [convertMessages] at h
    cases hc : convertBlocks tm m.Content with
    | error e' =>
      rw [hc] at h
      obtain rfl : e' = e := by simpa using h
      exact ⟨m, List.mem_cons_self m rest, hc⟩
    | ok parts =>
      rw [hc] at h
      cases hr : convertMessages tm rest with
      | error e' =>
        rw [hr] at h
        obtain rfl : e' = e := by simpa using h
        obtain ⟨m', hm', he'⟩ := ih _ hr
        exact ⟨m', List.mem_cons_of_mem m hm', he'⟩
      | ok cs =>
        rw [hr] at h
        simp at h

theorem convertMessages_ok_blocks (tm : String → Option String) :
    ∀ (ms : List AnthropicMessage) (cs : List GeminiContent),
      convertMessages tm ms = .ok cs →
      ∀ m ∈ ms, ∃ ps, convertBlocks tm m.Content = .ok ps := by
  intro ms
  induction ms with
  | nil => intro cs _ m hm; cases hm
  | cons m0 rest ih =>
    intro cs h m hm
    simp only [convertMessages] at h
    cases hc : convertBlocks tm m0.Content with
    | error e' => rw [hc] at h; simp at h
    | ok parts =>
      rw [hc] at h
      rcases List.mem_cons.mp hm with rfl | hmr
      · exact ⟨parts, hc⟩
      · cases hr : convertMessages tm rest with
        | error e' => rw [hr] at h; simp at h
        | ok cs' => exact ih cs' hr m hmr

theorem convertMessages_ok_total (tm : String → Option String)
    (ms : List AnthropicMessage)
    (h : ∀ m ∈ ms, ∀ e, convertBlocks tm m.Content ≠ .error e) :
    ∃ cs, convertMessages tm ms = .ok cs := by
  cases hr : convertMessages tm ms with
  | ok cs => exact ⟨cs, rfl⟩
  | error e =>
    obtain ⟨m, hm, he⟩ := convertMessages_error tm ms e hr
    exact absurd he (h m hm e)

theorem insertTool_none_iff (tm : String → Option String) (b : AnthropicContentBlock)
    (id : String) (hne : id ≠ "") :
    insertTool tm b id = none ↔
      tm id = none ∧ ¬(b.Type_ = ContentTypeToolUse ∧ b.ID = id ∧ b.Name ≠ "") := by
  unfold insertTool
  by_cases hc : b.Type_ = ContentTypeToolUse ∧ b.ID ≠ "" ∧ b.Name ≠ ""
  · obtain ⟨ht, hid, hn⟩ := hc
    simp only [ht, hid, hn, and_true, true_and, if_pos, ne_eq, not_false_eq_true]
    by_cases hk : id = b.ID
    · subst hk
      simp [hn]
    · simp [hk, Ne.symm hk]
  · simp only [hc, if_neg, not_false_eq_true]
    constructor
    · intro h
      refine ⟨h, ?_⟩
      rintro ⟨ht, hid, hn⟩
      exact hc ⟨ht, hid ▸ hne, hn⟩
    · intro ⟨h, _⟩
      exact h

theorem buildToolMapBlocks_none_iff (id : String) (hne : id ≠ "") :
    ∀ (bs : List AnthropicContentBlock) (tm : String → Option String),
      buildToolMapBlocks tm bs id = none ↔
        tm id = none ∧ ∀ b ∈ bs, ¬(b.Type_ = ContentTypeToolUse ∧ b.ID = id ∧ b.Name ≠ "") := by
  intro bs
  induction bs with
  | nil => intro tm; simp [buildToolMapBlocks]
  | cons b rest ih =>
    intro tm
    simp only [buildToolMapBlocks]
    rw [ih (insertTool tm b), insertTool_none_iff tm b id hne]
    constructor
    · rintro ⟨⟨h1, h2⟩, h3⟩
      refine ⟨h1, ?_⟩
      intro b' hb'
      rcases List.mem_cons.mp hb' with rfl | hbr
      · exact h2
      · exact h3 b' hbr
    · rintro ⟨h1, h2⟩
      exact ⟨⟨h1, h2 b (List.mem_cons_self b rest)⟩,
             fun b' hb' => h2 b' (List.mem_cons_of_mem b hb')⟩

theorem buildToolMapMsgs_none_iff (id : String) (hne : id ≠ "") :
    ∀ (ms : List AnthropicMessage) (tm : String → Option String),
      buildToolMapMsgs tm ms id = none ↔
        tm id = none ∧
          ∀ m ∈ ms, ∀ b ∈ m.Content,
            ¬(b.Type_ = ContentTypeToolUse ∧ b.ID = id ∧ b.Name ≠ "") := by
  intro ms
  induction ms with
  | nil => intro tm; simp [buildToolMapMsgs]
  | cons m rest ih =>
    intro tm
    simp only [buildToolMapMsgs]
    rw [ih (buildToolMapBlocks tm m.Content), buildToolMapBlocks_none_iff id hne]
    constructor
    · rintro ⟨⟨h1, h2⟩, h3⟩
      refine ⟨h1, ?_⟩
      intro m' hm'
      rcases List.mem_cons.mp hm' with rfl | hmr
      · exact h2
      · exact h3 m' hmr
    · rintro ⟨h1, h2⟩
      exact ⟨⟨h1, h2 m (List.mem_cons_self m rest)⟩,
             fun m' hm' => h2 m' (List.mem_cons_of_mem m hm')⟩

theorem buildToolMap_none_iff (msgs : List AnthropicMessage) (id : String) (hne : id ≠ "") :
    buildToolMap msgs id = none ↔ ¬ isKnownToolUseId msgs id := by
  unfold buildToolMap
  rw [buildToolMapMsgs_none_iff id hne]
  unfold isKnownToolUseId emptyToolMap
  constructor
  · rintro ⟨_, h⟩ ⟨m, hm, b, hb, ht, hid, hn⟩
    exact h m hm b hb ⟨ht, hid, hn⟩
  · intro h
    refine ⟨rfl, ?_⟩
    intro m hm b hb ⟨ht, hid, hn⟩
    exact h ⟨m, hm, b, hb, ht, hid, hn⟩

theorem except_map_error {α β : Type} (x : Except String α) (f : α → β) (e : String)
    (h : x.map f = .error e) : x = .error e := by
  cases x with
  | error e' => simpa [Except.map] using h
  | ok a => simp [Except.map] at h

theorem genaiPartsOf_error_prefix (decode : String → Except String (List Nat)) :
    ∀ (ps : List GeminiPart) (e : String),
      genaiPartsOf decode ps = .error e → ∃ em, e = decodeErrPrefix ++ em := by
  intro ps
  induction ps with
  | nil => intro e h; simp [genaiPartsOf] at h
  | cons p rest ih =>
    intro e h
    simp only [genaiPartsOf] at h
    split_ifs at h with ht
    · exact ih e (except_map_error _ _ _ h)
    · repeat' split at h
      all_goals
        first
          | exact ih e (except_map_error _ _ _ h)
          | exact ih e h
          | (simp at h; exact ⟨_, h.symm⟩)

theorem genaiContentsOf_error_prefix (decode : String → Except String (List Nat)) :
    ∀ (ccs : List GeminiContent) (e : String),
      genaiContentsOf decode ccs = .error e → ∃ em, e = decodeErrPrefix ++ em := by
  intro ccs
  induction ccs with
  | nil => intro e h; simp [genaiContentsOf] at h
  | cons cc rest ih =>
    intro e h
    simp only [genaiContentsOf] at h
    cases hp : genaiPartsOf decode cc.Parts with
    | error ep =>
      rw [hp] at h
      obtain rfl : ep = e := by simpa using h
      exact genaiPartsOf_error_prefix decode cc.Parts _ hp
    | ok parts =>
      rw [hp] at h
      exact ih e (except_map_error _ _ _ h)

theorem decode_err_ne_corr_err : ∀ a b : String, decodeErrPrefix ++ a ≠ corrErr b := by
  intro a b h
  have h2 := congrArg String.data h
  simp [decodeErrPrefix, corrErr] at h2

/-- Claim C2: a tool_result whose non-empty tool_use_id is declared
by no tool_use block (with a non-empty name) anywhere in the list
makes ToCustomGeminiContents, and hence ToGeminiContents, fail with
the correlation error naming an unknown id exactly, producing no
output; when every non-empty tool_use_id is declared somewhere, no
correlation error is ever raised. -/
theorem toolResult_unknown_id_correlation_error :
    ∀ msgs : List AnthropicMessage,
      (hasUnknownToolResult msgs →
        ∃ id, id ≠ "" ∧ ¬ isKnownToolUseId msgs id
          ∧ ToCustomGeminiContents msgs = .error (corrErr id)
          ∧ ∀ decode, ToGeminiContents decode msgs = .error (corrErr id))
      ∧ (¬ hasUnknownToolResult msgs →
        (∃ cs, ToCustomGeminiContents msgs = .ok cs)
          ∧ ∀ decode e, ToGeminiContents decode msgs = .error e → ∀ id, e ≠ corrErr id) := by
  intro msgs
  constructor
  · rintro ⟨m, hm, b, hb, htype, hne, hunk⟩
    have htm : buildToolMap msgs b.ToolUseID = none :=
      (buildToolMap_none_iff msgs b.ToolUseID hne).mpr hunk
    have hconv := convertBlock_toolResult_unknown b (buildToolMap msgs) htype hne htm
    cases hres : ToCustomGeminiContents msgs with
    | ok cs =>
      exfalso
      obtain ⟨ps, hps⟩ := convertMessages_ok_blocks (buildToolMap msgs) msgs cs hres m hm
      obtain ⟨p, hp⟩ := convertBlocks_ok_each (buildToolMap msgs) m.Content ps hps b hb
      rw [hconv] at hp
      cases hp
    | error e =>
      obtain ⟨m', hm', hbe⟩ := convertMessages_error (buildToolMap msgs) msgs e hres
      obtain ⟨b', hb', hce⟩ := convertBlocks_error_mem (buildToolMap msgs) m'.Content e hbe
      obtain ⟨ht', hne', htm', heq⟩ := convertBlock_error_char b' (buildToolMap msgs) e hce
      subst heq
      refine ⟨b'.ToolUseID, hne', (buildToolMap_none_iff msgs b'.ToolUseID hne').mp htm', rfl, ?_⟩
      intro decode
      simp [ToGeminiContents, hres]
  · intro hnone
    have hblocks : ∀ m ∈ msgs, ∀ e, convertBlocks (buildToolMap msgs) m.Content ≠ .error e := by
      intro m hm e hcb
      obtain ⟨b, hb, hce⟩ := convertBlocks_error_mem (buildToolMap msgs) m.Content e hcb
      obtain ⟨ht, hne, htm, _⟩ := convertBlock_error_char b (buildToolMap msgs) e hce
      exact hnone ⟨m, hm, b, hb, ht, hne, (buildToolMap_none_iff msgs b.ToolUseID hne).mp htm⟩
    obtain ⟨cs, hcs⟩ := convertMessages_ok_total (buildToolMap msgs) msgs hblocks
    have hcs2 : ToCustomGeminiContents msgs = .ok cs := hcs
    refine ⟨⟨cs, hcs2⟩, ?_⟩
    intro decode e h id
    unfold ToGeminiContents at h
    rw [hcs2] at h
    obtain ⟨em, rfl⟩ := genaiContentsOf_error_prefix decode cs e h
    exact decode_err_ne_corr_err em id

/-- Witness for claim C2: the unknown-id list of the repository test
(tool_result referencing unknown_id with no tool_use anywhere) fails
with the correlation error, and a list whose tool_result id is
declared translates without error. -/
theorem toolResult_unknown_id_correlation_error_witness :
    (∃ id, id ≠ ""
       ∧ ¬ isKnownToolUseId
           [{ Role := "user",
              Content := [{ Type_ := "tool_result", ToolUseID := "unknown_id",
                            Content := some (JSONValue.str "some result") }] }] id
       ∧ ToCustomGeminiContents
           [{ Role := "user",
              Content := [{ Type_ := "tool_result", ToolUseID := "unknown_id",
                            Content := some (JSONValue.str "some result") }] }]
           = .error (corrErr id)
       ∧ ∀ decode, ToGeminiContents decode
           [{ Role := "user",
              Content := [{ Type_ := "tool_result", ToolUseID := "unknown_id",
                            Content := some (JSONValue.str "some result") }] }]
           = .error (corrErr id))
    ∧ (∃ cs, ToCustomGeminiContents
          [{ Role := "assistant",
             Content := [{ Type_ := "tool_use", ID := "toolu_123", Name := "get_weather" }] },
           { Role := "user",
             Content := [{ Type_ := "tool_result", ToolUseID := "toolu_123",
                           Content := some (JSONValue.str "72 degrees and sunny") }] }]
          = .ok cs) := by
  constructor
  · apply (toolResult_unknown_id_correlation_error _).1
    refine ⟨_, List.mem_cons_self _ _, _, List.mem_cons_self _ _, rfl, by decide, ?_⟩
    rintro ⟨m, hm, b, hb, ht, hid, hn⟩
    simp at hm
    subst hm
    simp at hb
    subst hb
    simp [ContentTypeToolUse] at ht
  · apply And.left
    apply (toolResult_unknown_id_correlation_error _).2
    rintro ⟨m, hm, b, hb, ht, hid, hunk⟩
    simp at hm
    rcases hm with rfl | rfl
    · simp at hb
      subst hb
      simp [ContentTypeToolResult] at ht
    · simp at hb
      subst hb
      exact hunk ⟨_, List.mem_cons_self _ _, _, List.mem_cons_self _ _, rfl, rfl, by decide⟩

/-- Counterexample for claim C3: a list whose tool_result comes
BEFORE the only tool_use declaring its id translates successfully,
because the tool map is built in a first pass over the whole list;
the claim says every such list must fail. -/
theorem toolResult_before_toolUse_succeeds_cex :
    ToCustomGeminiContents
      [{ Role := "user",
         Content := [{ Type_ := "tool_result", ToolUseID := "toolu_X",
                       Content := some (JSONValue.str "r") }] },
       { Role := "assistant",
         Content := [{ Type_ := "tool_use", ID := "toolu_X", Name := "f" }] }]
    = .ok [{ Role := "user",
             Parts := [{ FunctionResponse :=
                           some { Name := "f",
                                  Response := [("result", JSONValue.str "r")] } }] },
           { Role := "model",
             Parts := [{ FunctionCall := some { Name := "f", Args := [] } }] }] := by
  rfl

/-- Claim C3 (amended): a tool_result may reference a tool_use that
appears only in a later message; the forward pass over the whole
list resolves it and translation succeeds. Translation fails only
when the id is declared nowhere in the list. -/
theorem toolResult_forward_reference_translates :
    ∀ (kid nm : String) (cnt : JSONValue),
      kid ≠ "" → nm ≠ "" →
      ToCustomGeminiContents
        [{ Role := RoleUser,
           Content := [{ Type_ := ContentTypeToolResult, ToolUseID := kid,
                         Content := some cnt }] },
         { Role := RoleAssistant,
           Content := [{ Type_ := ContentTypeToolUse, ID := kid, Name := nm }] }]
      = .ok [{ Role := RoleUser,
               Parts := [{ FunctionResponse :=
                             some { Name := nm,
                                    Response := [(ResponseFieldResult, cnt)] } }] },
             { Role := RoleModel,
               Parts := [{ FunctionCall := some { Name := nm, Args := [] } }] }] := by
  intro kid nm cnt hk hn
  simp [ToCustomGeminiContents, convertMessages, convertBlocks, convertContentBlockToCustom,
        buildToolMap, buildToolMapMsgs, buildToolMapBlocks, insertTool, emptyToolMap,
        mapRole, toolResultContent, hk, hn,
        ContentTypeText, ContentTypeImage, ContentTypeToolUse, ContentTypeToolResult,
        RoleUser, RoleAssistant, RoleModel, ResponseFieldResult]

/-- Witness for the amended claim C3 at a concrete forward-referencing
conversation. -/
theorem toolResult_forward_reference_translates_witness :
    ToCustomGeminiContents
      [{ Role := RoleUser,
         Content := [{ Type_ := ContentTypeToolResult, ToolUseID := "toolu_42",
                       Content := some (JSONValue.str "ok") }] },
       { Role := RoleAssistant,
         Content := [{ Type_ := ContentTypeToolUse, ID := "toolu_42", Name := "get_weather" }] }]
    = .ok [{ Role := RoleUser,
             Parts := [{ FunctionResponse :=
                           some { Name := "get_weather",
                                  Response := [(ResponseFieldResult, JSONValue.str "ok")] } }] },
           { Role := RoleModel,
             Parts := [{ FunctionCall := some { Name := "get_weather", Args := [] } }] }] :=
  toolResult_forward_reference_translates "toolu_42" "get_weather" (JSONValue.str "ok")
    (by decide) (by decide)

/- Helper lemmas for the empty-message claim. -/

theorem convertBlocks_all_none (tm : String → Option String) :
    ∀ bs : List AnthropicContentBlock,
      (∀ b ∈ bs, convertContentBlockToCustom b tm = .ok none) →
      convertBlocks tm bs = .ok [] := by
  intro bs
  induction bs with
  | nil => intro _; rfl
  | cons b rest ih =>
    intro h
    simp only [convertBlocks]
    rw [h b (List.mem_cons_self b rest)]
    exact ih (fun b' hb' => h b' (List.mem_cons_of_mem b hb'))

theorem insertTool_of_none (b : AnthropicContentBlock)
    (h : ∀ tm, convertContentBlockToCustom b tm = .ok none) :
    ∀ tm, insertTool tm b = tm := by
  intro tm
  unfold insertTool
  by_cases hc : b.Type_ = ContentTypeToolUse ∧ b.ID ≠ "" ∧ b.Name ≠ ""
  · exfalso
    obtain ⟨ht, _, hn⟩ := hc
    have := h tm
    simp [convertContentBlockToCustom, ht, hn,
          ContentTypeText, ContentTypeImage, ContentTypeToolUse] at this
  · simp [hc]

theorem buildToolMapBlocks_id :
    ∀ (bs : List AnthropicContentBlock) (tm : String → Option String),
      (∀ b ∈ bs, ∀ tm', insertTool tm' b = tm') →
      buildToolMapBlocks tm bs = tm := by
  intro bs
  induction bs with
  | nil => intro tm _; rfl
  | cons b rest ih =>
    intro tm h
    simp only [buildToolMapBlocks]
    rw [h b (List.mem_cons_self b rest) tm]
    exact ih tm (fun b' hb' => h b' (List.mem_cons_of_mem b hb'))

theorem buildToolMapMsgs_drop (m : AnthropicMessage)
    (hm : ∀ tm, buildToolMapBlocks tm m.Content = tm) :
    ∀ (pre post : List AnthropicMessage) (tm : String → Option String),
      buildToolMapMsgs tm (pre ++ m :: post) = buildToolMapMsgs tm (pre ++ post) := by
  intro pre
  induction pre with
  | nil =>
    intro post tm
    simp only [List.nil_append, buildToolMapMsgs]
    rw [hm tm]
  | cons p pre ih =>
    intro post tm
    simp only [List.cons_append, buildToolMapMsgs]
    exact ih post (buildToolMapBlocks tm p.Content)

theorem convertMessages_cons_skip (tm : String → Option String) (m : AnthropicMessage)
    (ms : List AnthropicMessage) (hm : convertBlocks tm m.Content = .ok []) :
    convertMessages tm (m :: ms) = convertMessages tm ms := by
  simp only [convertMessages, hm]
  cases h : convertMessages tm ms <;> simp

theorem convertMessages_drop_middle (tm : String → Option String) (m : AnthropicMessage)
    (hm : convertBlocks tm m.Content = .ok []) :
    ∀ (pre post : List AnthropicMessage),
      convertMessages tm (pre ++ m :: post) = convertMessages tm (pre ++ post) := by
  intro pre
  induction pre with
  | nil =>
    intro post
    simpa using convertMessages_cons_skip tm m post hm
  | cons p pre ih =>
    intro post
    simp only [List.cons_append, convertMessages, List.append_eq]
    rw [ih post]

theorem convertBlocks_empty_iff (tm : String → Option String) :
    ∀ (bs : List AnthropicContentBlock) (ps : List GeminiPart),
      convertBlocks tm bs = .ok ps →
      (ps.isEmpty = !(bs.any (producesPart tm))) := by
  intro bs
  induction bs with
  | nil =>
    intro ps h
    simp only [convertBlocks] at h
    obtain rfl : ([] : List GeminiPart) = ps := by simpa using h
    simp
  | cons b rest ih =>
    intro ps h
    simp only [convertBlocks] at h
    cases hc : convertContentBlockToCustom b tm with
    | error e => rw [hc] at h; simp at h
    | ok p =>
      rw [hc] at h
      cases p with
      | none =>
        have hpp : producesPart tm b = false := by simp [producesPart, hc]
        simp [hpp, ih ps h]
      | some part =>
        have hpp : producesPart tm b = true := by simp [producesPart, hc]
        cases hr : convertBlocks tm rest with
        | error e => rw [hr] at h; simp at h
        | ok ps' =>
          rw [hr] at h
          obtain rfl : part :: ps' = ps := by simpa using h
          simp [hpp]

theorem convertMessages_shape (tm : String → Option String) :
    ∀ (msgs : List AnthropicMessage) (cs : List GeminiContent),
      convertMessages tm msgs = .ok cs →
      (∀ c ∈ cs, c.Parts ≠ [])
        ∧ cs.length = (msgs.filter (fun m => msgProducesPart tm m)).length := by
  intro msgs
  induction msgs with
  | nil =>
    intro cs h
    simp only [convertMessages] at h
    obtain rfl : ([] : List GeminiContent) = cs := by simpa using h
    simp
  | cons m rest ih =>
    intro cs h
    simp only [convertMessages] at h
    cases hc : convertBlocks tm m.Content with
    | error e => rw [hc] at h; simp at h
    | ok parts =>
      rw [hc] at h
      cases hr : convertMessages tm rest with
      | error e => rw [hr] at h; simp at h
      | ok cs' =>
        rw [hr] at h
        obtain rfl : (if parts.isEmpty then cs'
            else { Role := mapRole m.Role, Parts := parts } :: cs') = cs := by simpa using h
        have hiff := convertBlocks_empty_iff tm m.Content parts hc
        have hmp : msgProducesPart tm m = !parts.isEmpty := by
          simp only [msgProducesPart]
          rw [show m.Content.any (producesPart tm) = !(!(m.Content.any (producesPart tm))) by simp,
              ← hiff]
        obtain ⟨ih1, ih2⟩ := ih cs' hr
        cases hp : parts.isEmpty with
        | true =>
          rw [hp] at hmp
          simp only [hp, if_true]
          refine ⟨ih1, ?_⟩
          simp [List.filter, hmp, ih2]
        | false =>
          rw [hp] at hmp
          simp only [Bool.false_eq_true, if_false]
          constructor
          · intro c hc'
            rcases List.mem_cons.mp hc' with rfl | hcr
            · intro hparts
              have hnil : parts = [] := hparts
              rw [hnil] at hp
              simp at hp
            · exact ih1 c hcr
          · simp [List.filter, hmp, ih2]

/-- Claim C8: a text block with an empty body yields no backend
part; a message all of whose blocks yield no parts is omitted
entirely from the translated list; on success no emitted content is
an empty turn and the number of emitted contents is exactly the
number of messages with at least one part-producing block. -/
theorem empty_text_blocks_and_empty_messages_dropped :
    (∀ (b : AnthropicContentBlock) (tm : String → Option String),
        b.Type_ = ContentTypeText → b.Text = "" →
        convertContentBlockToCustom b tm = .ok none)
    ∧ (∀ (pre post : List AnthropicMessage) (m : AnthropicMessage),
        (∀ b ∈ m.Content, ∀ tm, convertContentBlockToCustom b tm = .ok none) →
        ToCustomGeminiContents (pre ++ m :: post) = ToCustomGeminiContents (pre ++ post))
    ∧ (∀ (msgs : List AnthropicMessage) (cs : List GeminiContent),
        ToCustomGeminiContents msgs = .ok cs →
        (∀ c ∈ cs, c.Parts ≠ [])
          ∧ cs.length = (msgs.filter (fun m => msgProducesPart (buildToolMap msgs) m)).length) := by
  refine ⟨?_, ?_, ?_⟩
  · intro b tm ht he
    simp [convertContentBlockToCustom, ht, he, ContentTypeText]
  · intro pre post m h
    have hins : ∀ b ∈ m.Content, ∀ tm', insertTool tm' b = tm' :=
      fun b hb => insertTool_of_none b (fun tm => h b hb tm)
    have hbm : ∀ tm, buildToolMapBlocks tm m.Content = tm :=
      fun tm => buildToolMapBlocks_id m.Content tm hins
    have htm : buildToolMap (pre ++ m :: post) = buildToolMap (pre ++ post) :=
      buildToolMapMsgs_drop m hbm pre post emptyToolMap
    have hcb : convertBlocks (buildToolMap (pre ++ m :: post)) m.Content = .ok [] :=
      convertBlocks_all_none _ m.Content (fun b hb => h b hb _)
    unfold ToCustomGeminiContents
    rw [convertMessages_drop_middle _ m hcb pre post, htm]
  · intro msgs cs h
    exact convertMessages_shape (buildToolMap msgs) msgs cs h

/-- Witness for claim C8 at the repository test list: an empty text
block yields no part, a message of only empty text is dropped, and
the emitted count matches the part-producing messages. -/
theorem empty_text_blocks_and_empty_messages_dropped_witness :
    convertContentBlockToCustom { Type_ := "text", Text := "" } emptyToolMap = .ok none
    ∧ ToCustomGeminiContents
        [{ Role := "user", Content := [{ Type_ := "text", Text := "" }] },
         { Role := "user", Content := [{ Type_ := "text", Text := "hi" }] }]
      = ToCustomGeminiContents
        [{ Role := "user", Content := [{ Type_ := "text", Text := "hi" }] }]
    ∧ ((∀ c ∈ [({ Role := "user", Parts := [{ Text := "Actual text" }] } : GeminiContent)], c.Parts ≠ [])
        ∧ [({ Role := "user", Parts := [{ Text := "Actual text" }] } : GeminiContent)].length
          = ([{ Role := "user",
                Content := [{ Type_ := "text", Text := "" },
                            { Type_ := "text", Text := "Actual text" }] }].filter
              (fun m => msgProducesPart
                (buildToolMap
                  [{ Role := "user",
                     Content := [{ Type_ := "text", Text := "" },
                                 { Type_ := "text", Text := "Actual text" }] }]) m)).length) :=
  ⟨empty_text_blocks_and_empty_messages_dropped.1 _ emptyToolMap rfl rfl,
   empty_text_blocks_and_empty_messages_dropped.2.1
     [] [{ Role := "user", Content := [{ Type_ := "text", Text := "hi" }] }]
     { Role := "user", Content := [{ Type_ := "text", Text := "" }] }
     (by
       intro b hb tm
       simp at hb
       subst hb
       rfl),
   empty_text_blocks_and_empty_messages_dropped.2.2
     [{ Role := "user",
        Content := [{ Type_ := "text", Text := "" },
                    { Type_ := "text", Text := "Actual text" }] }]
     [{ Role := "user", Parts := [{ Text := "Actual text" }] }]
     (by rfl)⟩

/- Helper lemmas for the thought-signature store claim. -/

theorem cacheStep_preserve (st : String → Option String) (b : AnthropicContentBlock) (k : String)
    (h : ¬(b.Type_ = ContentTypeToolUse ∧ b.ThoughtSignature ≠ "" ∧ b.ID = k)) :
    cacheStep st b k = st k := by
  unfold cacheStep
  by_cases hc : b.Type_ = ContentTypeToolUse ∧ b.ThoughtSignature ≠ ""
  · obtain ⟨ht, hs⟩ := hc
    simp only [ht, hs, and_self, if_pos, ne_eq, not_false_eq_true, true_and]
    have hk : ¬ k = b.ID := fun hk => h ⟨ht, hs, hk.symm⟩
    simp [hk]
  · simp [hc]

theorem foldl_cacheStep_preserve (k : String) :
    ∀ (bs : List AnthropicContentBlock) (st : String → Option String),
      (∀ b ∈ bs, ¬(b.Type_ = ContentTypeToolUse ∧ b.ThoughtSignature ≠ "" ∧ b.ID = k)) →
      bs.foldl cacheStep st k = st k := by
  intro bs
  induction bs with
  | nil => intro st _; rfl
  | cons b rest ih =>
    intro st h
    simp only [List.foldl_cons]
    rw [ih (cacheStep st b) (fun b' hb' => h b' (List.mem_cons_of_mem b hb'))]
    exact cacheStep_preserve st b k (h b (List.mem_cons_self b rest))

theorem cache_lookup (store : String → Option String) (resp : AnthropicResponse)
    (pre post : List AnthropicContentBlock) (b : AnthropicContentBlock)
    (hc : resp.Content = pre ++ b :: post)
    (ht : b.Type_ = ContentTypeToolUse) (hs : b.ThoughtSignature ≠ "")
    (hpost : ∀ b' ∈ post, ¬(b'.Type_ = ContentTypeToolUse ∧ b'.ThoughtSignature ≠ "" ∧ b'.ID = b.ID)) :
    cacheThoughtSignatures store resp b.ID = some b.ThoughtSignature := by
  unfold cacheThoughtSignatures
  rw [hc, List.foldl_append, List.foldl_cons]
  rw [foldl_cacheStep_preserve b.ID post _ hpost]
  unfold cacheStep
  simp [ht, hs]

theorem inject_get (store : String → Option String) (req : AnthropicRequest)
    (i j : Nat) (m : AnthropicMessage) (c : AnthropicContentBlock)
    (hi : req.Messages[i]? = some m) (hj : m.Content[j]? = some c) :
    ∃ m', (injectThoughtSignatures store req).Messages[i]? = some m'
      ∧ m'.Content[j]? = some (injectBlockSignature store c) := by
  refine ⟨{ m with Content := m.Content.map (injectBlockSignature store) }, ?_, ?_⟩
  · simp only [injectThoughtSignatures]
    rw [List.getElem?_map, hi]
    rfl
  · show (m.Content.map (injectBlockSignature store))[j]? = _
    rw [List.getElem?_map, hj]
    rfl

/-- Claim C1 (thought-signature store, modelled from the spec): after
cache is applied to a response whose content holds a tool_use block
with id K and non-empty signature S (and no later block overwrites
K), inject on a request holding a tool_use block with id K and an
empty signature field sets that field to S; and inject on a block
whose id has no cached entry leaves the field empty, with no error
possible. -/
theorem thoughtSignature_cache_inject_roundtrip :
    (∀ (store : String → Option String) (resp : AnthropicResponse)
        (pre post : List AnthropicContentBlock) (b : AnthropicContentBlock)
        (req : AnthropicRequest) (i j : Nat)
        (m : AnthropicMessage) (c : AnthropicContentBlock),
        resp.Content = pre ++ b :: post →
        b.Type_ = ContentTypeToolUse → b.ThoughtSignature ≠ "" →
        (∀ b' ∈ post,
          ¬(b'.Type_ = ContentTypeToolUse ∧ b'.ThoughtSignature ≠ "" ∧ b'.ID = b.ID)) →
        req.Messages[i]? = some m → m.Content[j]? = some c →
        c.Type_ = ContentTypeToolUse → c.ID = b.ID → c.ThoughtSignature = "" →
        ∃ m', (injectThoughtSignatures (cacheThoughtSignatures store resp) req).Messages[i]? = some m'
          ∧ m'.Content[j]? = some { c with ThoughtSignature := b.ThoughtSignature })
    ∧ (∀ (store : String → Option String) (req : AnthropicRequest) (i j : Nat)
          (m : AnthropicMessage) (c : AnthropicContentBlock),
        req.Messages[i]? = some m → m.Content[j]? = some c →
        store c.ID = none → c.ThoughtSignature = "" →
        ∃ m', (injectThoughtSignatures store req).Messages[i]? = some m'
          ∧ m'.Content[j]? = some c) := by
  constructor
  · intro store resp pre post b req i j m c hcont ht hs hpost hi hj hct hcid hcsig
    have hstore : cacheThoughtSignatures store resp c.ID = some b.ThoughtSignature := by
      rw [hcid]
      exact cache_lookup store resp pre post b hcont ht hs hpost
    have hblock : injectBlockSignature (cacheThoughtSignatures store resp) c
        = { c with ThoughtSignature := b.ThoughtSignature } := by
      unfold injectBlockSignature
      simp [hct, hcsig, hstore]
    obtain ⟨m', hm', hc'⟩ := inject_get (cacheThoughtSignatures store resp) req i j m c hi hj
    exact ⟨m', hm', hblock ▸ hc'⟩
  · intro store req i j m c hi hj hstore hcsig
    have hblock : injectBlockSignature store c = c := by
      unfold injectBlockSignature
      by_cases hct : c.Type_ = ContentTypeToolUse
      · simp [hct, hcsig, hstore]
      · simp [hct]
    obtain ⟨m', hm', hc'⟩ := inject_get store req i j m c hi hj
    exact ⟨m', hm', hblock ▸ hc'⟩

/-- Witness for claim C1 at the repository test values: caching the
signature of tool_123 and injecting it back fills the empty field,
and an uncached id leaves the block unchanged. -/
theorem thoughtSignature_cache_inject_roundtrip_witness :
    (∃ m', (injectThoughtSignatures
              (cacheThoughtSignatures (fun _ => none)
                { Content := [{ Type_ := "tool_use", ID := "tool_123", Name := "search",
                                ThoughtSignature := "I need to search" }] })
              { Messages := [{ Role := "assistant",
                               Content := [{ Type_ := "tool_use", ID := "tool_123",
                                             Name := "search" }] }] }).Messages[0]?
        = some m'
      ∧ m'.Content[0]? = some { Type_ := "tool_use", ID := "tool_123", Name := "search",
                                ThoughtSignature := "I need to search" })
    ∧ (∃ m', (injectThoughtSignatures (fun _ => none)
                { Messages := [{ Role := "assistant",
                                 Content := [{ Type_ := "tool_use", ID := "tool_999",
                                               Name := "search" }] }] }).Messages[0]?
          = some m'
        ∧ m'.Content[0]? = some { Type_ := "tool_use", ID := "tool_999", Name := "search" }) :=
  ⟨thoughtSignature_cache_inject_roundtrip.1 (fun _ => none)
      { Content := [{ Type_ := "tool_use", ID := "tool_123", Name := "search",
                      ThoughtSignature := "I need to search" }] }
      [] []
      { Type_ := "tool_use", ID := "tool_123", Name := "search",
        ThoughtSignature := "I need to search" }
      { Messages := [{ Role := "assistant",
                       Content := [{ Type_ := "tool_use", ID := "tool_123",
                                     Name := "search" }] }] }
      0 0
      { Role := "assistant",
        Content := [{ Type_ := "tool_use", ID := "tool_123", Name := "search" }] }
      { Type_ := "tool_use", ID := "tool_123", Name := "search" }
      rfl rfl (by decide) (by simp) rfl rfl rfl rfl rfl,
   thoughtSignature_cache_inject_roundtrip.2 (fun _ => none)
      { Messages := [{ Role := "assistant",
                       Content := [{ Type_ := "tool_use", ID := "tool_999",
                                     Name := "search" }] }] }
      0 0
      { Role := "assistant",
        Content := [{ Type_ := "tool_use", ID := "tool_999", Name := "search" }] }
      { Type_ := "tool_use", ID := "tool_999", Name := "search" }
      rfl rfl rfl rfl⟩

end TwinInDisguise
